import Mathlib

/-!
Verification development for the pytakt realtime MIDI output engine
(midiout.cpp, notemap.h, cmidiio.cpp).  C++ doubles are modelled as exact
rationals (`ℚ`); where the IEEE special values matter we use `EDouble`,
an extension of `ℚ` with infinities and NaN.  `std::map` is modelled as a
sorted association list; the `std` heap routines are modelled by their
contract (see `make_heap`).
-/

namespace Pytakt

/-! Constants from takt/src/defs.h. -/

def C_SUSTAIN : Nat := 64

def C_ALL_SOUND_OFF : Nat := 120

def C_ALL_NOTES_OFF : Nat := 123

def M_TEMPO : Nat := 0x51

def ALL_TRACKS : Int := -1

def DEV_DUMMY : Int := -1

def DEV_LOOPBACK : Int := -2

/-! NoteMap (notemap.h): a `std::map` keyed by (devNum, tk, ch, n) with
note-on pile counts as values, modelled as an association list kept in
strictly increasing key order. -/

/-- Key of NoteMap: device, track, MIDI channel, note number (-1 = pedal). -/
structure NoteKey where
  devNum : Int
  tk : Int
  ch : Int
  n : Int
deriving DecidableEq, Repr

/-- NoteMap::lessp, the strict lexicographic order on keys. -/
def NoteKey.lt (m1 m2 : NoteKey) : Prop :=
  m1.devNum < m2.devNum ∨
    (m1.devNum = m2.devNum ∧
      (m1.tk < m2.tk ∨
        (m1.tk = m2.tk ∧
          (m1.ch < m2.ch ∨ (m1.ch = m2.ch ∧ m1.n < m2.n)))))

instance : DecidableRel NoteKey.lt := fun a b => by
  unfold NoteKey.lt; infer_instance

/-- One stored entry of the map: key and pile count. -/
abbrev NoteEntry := NoteKey × Int

/-- Representation of the std::map: association list in key order. -/
structure NoteMap where
  entries : List NoteEntry
deriving DecidableEq, Repr

/-- Lookup (std::map::find): value stored at a key, if present. -/
def NoteMap.find (m : NoteMap) (k : NoteKey) : Option Int :=
  (m.entries.find? (fun e => e.1 = k)).map (fun e => e.2)

/-- std::map::insert: insert (k, v) at its ordered position if the key is
absent; an existing entry is left unchanged. -/
def insertEntry (k : NoteKey) (v : Int) : List NoteEntry → List NoteEntry
  | [] => [(k, v)]
  | e :: rest =>
    if NoteKey.lt k e.1 then (k, v) :: e :: rest
    else if NoteKey.lt e.1 k then e :: insertEntry k v rest
    else e :: rest

/-- Replace the value stored at key k (used to model mutation through a
std::map iterator). -/
def updateEntry (k : NoteKey) (v : Int) : List NoteEntry → List NoteEntry
  | [] => []
  | e :: rest => if e.1 = k then (k, v) :: rest else e :: updateEntry k v rest

/-- std::map::erase of the entry at key k. -/
def eraseEntry (k : NoteKey) : List NoteEntry → List NoteEntry
  | [] => []
  | e :: rest => if e.1 = k then rest else e :: eraseEntry k rest

/-- NoteMap::push: create the entry with count 0 if absent, return the
pre-increment count, and increment the stored count. -/
def NoteMap.push (m : NoteMap) (devNum tk ch n : Int) : Int × NoteMap :=
  match m.find ⟨devNum, tk, ch, n⟩ with
  | some c => (c, ⟨updateEntry ⟨devNum, tk, ch, n⟩ (c + 1) m.entries⟩)
  | none => (0, ⟨insertEntry ⟨devNum, tk, ch, n⟩ 1 m.entries⟩)

/-- NoteMap::set: insert-only store of a count (no effect if present). -/
def NoteMap.set (m : NoteMap) (devNum tk ch n count : Int) : NoteMap :=
  ⟨insertEntry ⟨devNum, tk, ch, n⟩ count m.entries⟩

/-- NoteMap::pop: if present, decrement the count, erase the entry when the
new count is 0, and return the new count; absent keys return 0. -/
def NoteMap.pop (m : NoteMap) (devNum tk ch n : Int) : Int × NoteMap :=
  match m.find ⟨devNum, tk, ch, n⟩ with
  | some c =>
    if c - 1 = 0 then (0, ⟨eraseEntry ⟨devNum, tk, ch, n⟩ m.entries⟩)
    else (c - 1, ⟨updateEntry ⟨devNum, tk, ch, n⟩ (c - 1) m.entries⟩)
  | none => (0, m)

/-- NoteMap::clear(): erase all entries. -/
def NoteMap.clear (m : NoteMap) : NoteMap := ⟨[]⟩

/-- Erase the first contiguous run of entries satisfying p, starting at the
first entry that satisfies p.  This is the [p1, p2) range erase performed by
NoteMap::clear(devNum, tk, ch) and NoteMap::clearAndCall: p1 is the first
match and p2 the first non-match after p1. -/
def eraseFirstRun (p : NoteEntry → Bool) : List NoteEntry → List NoteEntry
  | [] => []
  | e :: rest => if p e then rest.dropWhile p else e :: eraseFirstRun p rest

/-- NoteMap::clear(devNum, tk, ch): range erase of the entries whose
(device, track, channel) equal the given prefix. -/
def NoteMap.clearChan (m : NoteMap) (devNum tk ch : Int) : NoteMap :=
  ⟨eraseFirstRun
    (fun e => e.1.devNum = devNum ∧ e.1.tk = tk ∧ e.1.ch = ch) m.entries⟩

/-- Match predicate of NoteMap::clearAndCall: device equal, and track equal
unless the track argument is ALL_TRACKS. -/
def matchesClear (devNum tk : Int) (e : NoteEntry) : Bool :=
  e.1.devNum = devNum ∧ (tk = ALL_TRACKS ∨ e.1.tk = tk)

/-- NoteMap::clearAndCall: the iteration calls the callback on every
matching entry in map order (returned as the first component) and then
erases the [p1, p2) range of matches. -/
def NoteMap.clearAndCall (m : NoteMap) (devNum tk : Int) :
    List NoteEntry × NoteMap :=
  (m.entries.filter (matchesClear devNum tk),
   ⟨eraseFirstRun (matchesClear devNum tk) m.entries⟩)

/-! Extended doubles.  midiout.cpp performs its time computations on C++
doubles; `EDouble` models a double as an exact rational extended with the
IEEE 754 special values (negative zero does not arise in the modelled
expressions, so it is not distinguished). -/

/-- A modelled double: finite rational, +infinity, -infinity, or NaN. -/
inductive EDouble where
  | fin (q : ℚ)
  | pinf
  | ninf
  | nan
deriving DecidableEq, Repr

/-- IEEE addition on modelled doubles. -/
def EDouble.add : EDouble → EDouble → EDouble
  | fin a, fin b => fin (a + b)
  | fin _, pinf => pinf
  | fin _, ninf => ninf
  | pinf, fin _ => pinf
  | ninf, fin _ => ninf
  | pinf, pinf => pinf
  | ninf, ninf => ninf
  | pinf, ninf => nan
  | ninf, pinf => nan
  | nan, _ => nan
  | _, nan => nan

/-- IEEE subtraction on modelled doubles. -/
def EDouble.sub : EDouble → EDouble → EDouble
  | fin a, fin b => fin (a - b)
  | fin _, pinf => ninf
  | fin _, ninf => pinf
  | pinf, fin _ => pinf
  | ninf, fin _ => ninf
  | pinf, ninf => pinf
  | ninf, pinf => ninf
  | pinf, pinf => nan
  | ninf, ninf => nan
  | nan, _ => nan
  | _, nan => nan

/-- IEEE multiplication on modelled doubles. -/
def EDouble.mul : EDouble → EDouble → EDouble
  | fin a, fin b => fin (a * b)
  | fin a, pinf => if 0 < a then pinf else if a < 0 then ninf else nan
  | fin a, ninf => if 0 < a then ninf else if a < 0 then pinf else nan
  | pinf, fin b => if 0 < b then pinf else if b < 0 then ninf else nan
  | ninf, fin b => if 0 < b then ninf else if b < 0 then pinf else nan
  | pinf, pinf => pinf
  | pinf, ninf => ninf
  | ninf, pinf => ninf
  | ninf, ninf => pinf
  | nan, _ => nan
  | _, nan => nan

/-- IEEE division on modelled doubles; division of a finite nonzero value
by (positive) zero yields the correspondingly signed infinity, 0/0 is NaN. -/
def EDouble.div : EDouble → EDouble → EDouble
  | fin a, fin b =>
    if b = 0 then (if 0 < a then pinf else if a < 0 then ninf else nan)
    else fin (a / b)
  | fin _, pinf => fin 0
  | fin _, ninf => fin 0
  | pinf, fin b => if 0 ≤ b then pinf else ninf
  | ninf, fin b => if 0 ≤ b then ninf else pinf
  | pinf, pinf => nan
  | pinf, ninf => nan
  | ninf, pinf => nan
  | ninf, ninf => nan
  | nan, _ => nan
  | _, nan => nan

/-! Tempo state (midiout.cpp statics): tempo in BPM, tempo scale factor and
the anchor of the piecewise-linear tick/millisecond mapping.  The stored
values are finite doubles, modelled as rationals. -/

/-- The tempo-mapping state variables of midiout.cpp. -/
structure TempoState where
  currentTempo : ℚ
  tempoScale : ℚ
  lastTempoChangeS : ℚ
  lastTempoChangeT : ℚ
deriving DecidableEq, Repr

/-- MidiOut::ticksToMsecs: (ticks - lastTempoChangeT) * 125.0
/ (currentTempo * tempoScale) + lastTempoChangeS, in double arithmetic. -/
def ticksToMsecs (st : TempoState) (ticks : EDouble) : EDouble :=
  (((ticks.sub (.fin st.lastTempoChangeT)).mul (.fin 125)).div
      ((EDouble.fin st.currentTempo).mul (.fin st.tempoScale))).add
    (.fin st.lastTempoChangeS)

/-- MidiOut::msecsToTicks: (msecs - lastTempoChangeS) * currentTempo
* tempoScale / 125.0 + lastTempoChangeT, in double arithmetic. -/
def msecsToTicks (st : TempoState) (msecs : EDouble) : EDouble :=
  ((((msecs.sub (.fin st.lastTempoChangeS)).mul (.fin st.currentTempo)).mul
        (.fin st.tempoScale)).div (.fin 125)).add
    (.fin st.lastTempoChangeT)

/-- MidiOut::setTempoScale clamps the requested scale:
requestedTempoScale = scale < 0 ? 0 : scale. -/
def requestedScale (scale : ℚ) : ℚ := if scale < 0 then 0 else scale

/-- The scheduler thread's application of a pending tempo-scale change
(midiOutThreadBody): re-anchor the mapping at the current wall clock using
the pre-change tempo and scale, then install the requested scale. -/
def applyTempoScaleChange (st : TempoState) (msecs requested : ℚ) :
    TempoState :=
  { currentTempo := st.currentTempo
    tempoScale := requested
    lastTempoChangeS := msecs
    lastTempoChangeT :=
      (msecs - st.lastTempoChangeS) * st.currentTempo * st.tempoScale / 125
        + st.lastTempoChangeT }

/-! Output event queue (midiout.cpp).  Event times are doubles, modelled as
rationals here (an infinite event time never reaches the dispatch code
modelled below, see the wait logic of midiOutThreadBody).  The wrap-around
behaviour of the 32-bit enqueue counter is modelled separately by
`toInt32`/`wrapCountDiff`; inside the queue model the counter is kept as an
unbounded sequence number. -/

/-- mo_queue_elm: device, time in ticks, enqueue sequence number, message
bytes and track tag. -/
structure MoQueueElm where
  devNum : Int
  time : ℚ
  seq : Nat
  msg : List Nat
  tk : Int
deriving DecidableEq, Repr

/-- mo_queue_elm::greater at unbounded sequence numbers: order by time,
ties broken by the enqueue counter. -/
def elmGreater (e1 e2 : MoQueueElm) : Prop :=
  e2.time < e1.time ∨ (e1.time = e2.time ∧ e2.seq < e1.seq)

instance : DecidableRel elmGreater := fun a b => by
  unfold elmGreater; infer_instance

/-- Negation of the heap comparator; the relation the heap keeps the array
partially ordered by. -/
def elmNotGreater (e1 e2 : MoQueueElm) : Prop := ¬ elmGreater e1 e2

instance : DecidableRel elmNotGreater := fun a b => by
  unfold elmNotGreater; infer_instance

/-- Signed 32-bit value whose bit pattern is n mod 2^32. -/
def toInt32 (n : Nat) : Int :=
  if n % 2 ^ 32 < 2 ^ 31 then (n % 2 ^ 32 : Int)
  else (n % 2 ^ 32 : Int) - 2 ^ 32

/-- The int expression e1->count - e2->count of mo_queue_elm::greater when
the stored counters are the 32-bit truncations of the enqueue sequence
numbers s1 and s2: 32-bit wrap-around subtraction, read as signed. -/
def wrapCountDiff (s1 s2 : Nat) : Int :=
  toInt32 (s1 + (2 ^ 32 - s2 % 2 ^ 32))

/-- mo_queue_elm::greater as compiled: time comparison with the tie broken
by the sign of the wrapped counter difference. -/
def queueGreater (t1 : ℚ) (s1 : Nat) (t2 : ℚ) (s2 : Nat) : Bool :=
  if t1 = t2 then 0 < wrapCountDiff s1 s2 else t2 < t1

/-- Binary-heap property in array layout: each parent is not greater than
either of its children under the heap comparator. -/
def isHeap (l : List MoQueueElm) : Prop :=
  ∀ i j : Nat, (j = 2 * i + 1 ∨ j = 2 * i + 2) →
    ∀ (hi : i < l.length) (hj : j < l.length),
      elmNotGreater (l.get ⟨i, hi⟩) (l.get ⟨j, hj⟩)

/-- Model of std::make_heap on moEventQueue by its contract: some
rearrangement of the elements satisfying the heap property; realised as
sorting by the comparator (a fully sorted array is a heap). -/
def make_heap (l : List MoQueueElm) : List MoQueueElm :=
  l.insertionSort elmNotGreater

/-- The two-pointer partition loop of doCancelMessages, which moves the
events to be deleted to the tail of moEventQueue: returns (kept prefix,
dropped elements).  One recursive step performs a swap together with the
pointer advances over the two swapped elements that immediately follow in
the next iteration of the source loop. -/
def cancelPartition (p : MoQueueElm → Bool) :
    List MoQueueElm → List MoQueueElm × List MoQueueElm
  | [] => ([], [])
  | x :: xs =>
    if p x then
      if hxs : xs = [] then ([], [x])
      else if p (xs.getLast hxs) then
        -- the right pointer steps over a matching element
        let r := cancelPartition p (x :: xs.dropLast)
        (r.1, xs.getLast hxs :: r.2)
      else
        -- swap a[i] and a[j], then advance both pointers
        let r := cancelPartition p xs.dropLast
        (xs.getLast hxs :: r.1, x :: r.2)
    else
      -- the left pointer steps over a non-matching element
      let r := cancelPartition p xs
      (x :: r.1, r.2)
termination_by l => l.length
decreasing_by
  · have hne : xs.length ≠ 0 := by
      intro h0
      rw [List.length_eq_zero] at h0
      exact hxs h0
    simp [List.length_dropLast]
    omega
  · simp [List.length_dropLast]
    omega
  · simp

/-- Deletion predicate of doCancelMessages on queue elements: device equal
and track equal unless cancelling ALL_TRACKS. -/
def cancelMatch (devNum tk : Int) (e : MoQueueElm) : Bool :=
  e.devNum = devNum ∧ (tk = ALL_TRACKS ∨ e.tk = tk)

/-! The MIDI output engine state (the statics of midiout.cpp that the
modelled operations read and write).  midiOutHandles is abstracted to a
list of booleans: entry i tells whether device i is open. -/

/-- State of the output side of the engine. -/
structure MidiOutState where
  midiOutHandles : List Bool
  moEventQueue : List MoQueueElm
  retriggerNotes : Bool
  retriggerNoteMap : NoteMap
  cancelNoteMap : NoteMap
  tempo : TempoState
deriving DecidableEq, Repr

/-- midiOutSendMessage: retrigger/cancel bookkeeping around the platform
send of one short message.  Returns the list of messages handed to
SysDep::midi_send (in order) and the updated note maps. -/
def midiOutSendMessage (retriggerNotes : Bool) (devNum tk : Int)
    (m : List Nat) (rmap cmap : NoteMap) :
    List (List Nat) × NoteMap × NoteMap :=
  let b0 := m.getD 0 0
  let b1 := m.getD 1 0
  let ch : Int := (b0 &&& 0xf : Nat)
  if (b0 &&& 0xf0 = 0x90 ∧ m.getD 2 0 = 0) ∨ b0 &&& 0xf0 = 0x80 then
    -- note-off: pop the retrigger pile (only with retrigger enabled) and
    -- suppress the output while other logical voices remain
    let rpop := if retriggerNotes then rmap.pop devNum 0 ch b1
                else (0, rmap)
    let noOutput := retriggerNotes ∧ 1 ≤ rpop.1
    let cpop := cmap.pop devNum tk ch b1
    (if noOutput then [] else [m], rpop.2, cpop.2)
  else if b0 &&& 0xf0 = 0x90 then
    -- note-on: push the retrigger pile (only with retrigger enabled); a
    -- prior count forces a synthetic note-off before the note-on
    let rpush := if retriggerNotes then rmap.push devNum 0 ch b1
                 else (0, rmap)
    let pre := if retriggerNotes ∧ 1 ≤ rpush.1 then [m.set 2 0] else []
    let cpush := cmap.push devNum tk ch b1
    (pre ++ [m], rpush.2, cpush.2)
  else if b0 &&& 0xf0 = 0xb0 ∧ (b1 = C_ALL_NOTES_OFF ∨ b1 = C_ALL_SOUND_OFF)
  then
    -- all-notes-off / all-sound-off: clear the retrigger map for the
    -- channel; the cancel map is deliberately kept
    (if retriggerNotes then ([m], (rmap.clearChan devNum 0 ch), cmap)
     else ([m], rmap, cmap))
  else if b0 &&& 0xf0 = 0xb0 ∧ b1 = C_SUSTAIN then
    -- sustain pedal: track it in the cancel map under note number -1
    (if m.getD 2 0 = 0 then ([m], rmap, (cmap.pop devNum tk ch (-1)).2)
     else ([m], rmap, cmap.set devNum tk ch (-1) 1))
  else ([m], rmap, cmap)

/-- Iterated NoteMap::pop at one key (the per-note-off retrigger pops that
cancelFunc performs). -/
def popN (k : Nat) (devNum ch n : Int) (m : NoteMap) : NoteMap :=
  match k with
  | 0 => m
  | j + 1 => popN j devNum ch n (m.pop devNum 0 ch n).2

/-- cancelFunc: the messages synthesized for one cancel-map entry (one
sustain-off for the pedal key, otherwise count note-offs) together with the
retrigger-map pops performed alongside them. -/
def cancelFunc (retriggerNotes : Bool) (devNum ch n count : Int)
    (rmap : NoteMap) : List (List Nat) × NoteMap :=
  if n = -1 then ([[0xb0 + ch.toNat, C_SUSTAIN, 0]], rmap)
  else (List.replicate count.toNat [0x90 + ch.toNat, n.toNat, 0],
        if retriggerNotes then popN count.toNat devNum ch n rmap else rmap)

/-- Run cancelFunc over the call list produced by NoteMap::clearAndCall,
threading the retrigger map and collecting the sent messages. -/
def runCancelCalls (retriggerNotes : Bool) (devNum : Int) :
    List NoteEntry → NoteMap → List (List Nat) × NoteMap
  | [], rmap => ([], rmap)
  | e :: rest, rmap =>
    let r1 := cancelFunc retriggerNotes devNum e.1.ch e.1.n e.2 rmap
    let r2 := runCancelCalls retriggerNotes devNum rest r1.2
    (r1.1 ++ r2.1, r2.2)

/-- The three controller messages doStopAll broadcasts on one channel:
all-notes-off, sustain off, all-sound-off. -/
def stopChannelMsgs (ch : Nat) : List (List Nat) :=
  [[0xb0 + ch, C_ALL_NOTES_OFF, 0], [0xb0 + ch, C_SUSTAIN, 0],
   [0xb0 + ch, C_ALL_SOUND_OFF, 0]]

/-- The per-device broadcast of doStopAll over its 16 channels. -/
def stopBroadcast : List (List Nat) :=
  (List.range 16).flatMap stopChannelMsgs

/-- The device loop of doStopAll: for every open device, clearAndCall on
the cancel map with cancelFunc, then the 16-channel broadcast.  Returns the
(device, message) send trace and the final cancel and retrigger maps. -/
def doStopAllLoop (retriggerNotes : Bool) (handles : List Bool) :
    List Nat → NoteMap → NoteMap →
    List (Nat × List Nat) × NoteMap × NoteMap
  | [], cmap, rmap => ([], cmap, rmap)
  | i :: rest, cmap, rmap =>
    if handles.getD i false then
      let cc := cmap.clearAndCall i ALL_TRACKS
      let r := runCancelCalls retriggerNotes i cc.1 rmap
      let r2 := doStopAllLoop retriggerNotes handles rest cc.2 r.2
      ((r.1 ++ stopBroadcast).map (fun msg => (i, msg)) ++ r2.1,
       r2.2.1, r2.2.2)
    else doStopAllLoop retriggerNotes handles rest cmap rmap

/-- doStopAll: cancel every sounding note of every open device, broadcast
the silencing controllers, then delete the whole event queue and clear both
note maps. -/
def doStopAll (st : MidiOutState) : List (Nat × List Nat) × MidiOutState :=
  let r := doStopAllLoop st.retriggerNotes st.midiOutHandles
    (List.range st.midiOutHandles.length) st.cancelNoteMap
    st.retriggerNoteMap
  (r.1,
   { st with moEventQueue := [], retriggerNoteMap := ⟨[]⟩,
             cancelNoteMap := ⟨[]⟩ })

/-- doCancelMessages: partition the matching events out of the queue,
re-heapify the kept prefix, and, when the device is open, clearAndCall the
cancel map (emitting note-offs via cancelFunc). -/
def doCancelMessages (devNum tk : Int) (st : MidiOutState) :
    MidiOutState × List (List Nat) :=
  let part := cancelPartition (cancelMatch devNum tk) st.moEventQueue
  let queue' := make_heap part.1
  if 0 ≤ devNum ∧ devNum < (st.midiOutHandles.length : Int) ∧
     st.midiOutHandles.getD devNum.toNat false then
    let cc := st.cancelNoteMap.clearAndCall devNum tk
    let r := runCancelCalls st.retriggerNotes devNum cc.1
      st.retriggerNoteMap
    ({ st with moEventQueue := queue', cancelNoteMap := cc.2,
               retriggerNoteMap := r.2 }, r.1)
  else ({ st with moEventQueue := queue' }, [])

/-! The dispatch phase of midiOutThreadBody: what happens to one event
popped from the top of the queue. -/

/-- Observable effect of dispatching one queue element. -/
inductive DispatchEffect where
  | loopback (devNum : Int) (time : ℚ) (tk : Int) (msg : List Nat)
  | sends (msgs : List (List Nat))
  | dropped
deriving DecidableEq, Repr

/-- The scheduler statics read and written by the dispatch phase of
midiOutThreadBody.  currentTempo is kept as a modelled double (EDouble):
the tempo-meta assignment divides the double 6e7 by the message's 24-bit
microseconds-per-beat value, which is +infinity when that value is 0. -/
structure DispatchState where
  midiOutHandles : List Bool
  retriggerNotes : Bool
  retriggerNoteMap : NoteMap
  cancelNoteMap : NoteMap
  currentTempo : EDouble
  lastTempoChangeS : ℚ
  lastTempoChangeT : ℚ
deriving DecidableEq, Repr

/-- Dispatch of one queue-top element in midiOutThreadBody, given the
wake-up time msecs and the target tick time ticks of this wake.  Loopback
events go to the input queue; meta messages other than tempo are ignored;
tempo metas re-anchor the mapping at the scheduled time and assign
currentTempo = 6e7 / usecsPerBeat in double arithmetic; other messages
reach midiOutSendMessage only for an open device (a 0xf0 sysex is sent as
its payload with the leading byte stripped). -/
def dispatchOne (st : DispatchState) (msecs ticks : ℚ)
    (qtop : MoQueueElm) : DispatchState × DispatchEffect :=
  if qtop.devNum = DEV_LOOPBACK then
    (st, .loopback qtop.devNum qtop.time qtop.tk qtop.msg)
  else if qtop.msg.getD 0 0 ≠ 0xff then
    if 0 ≤ qtop.devNum ∧ st.midiOutHandles.getD qtop.devNum.toNat false then
      let m := if qtop.msg.getD 0 0 = 0xf0 then qtop.msg.drop 1
               else qtop.msg
      let r := midiOutSendMessage st.retriggerNotes qtop.devNum qtop.tk m
        st.retriggerNoteMap st.cancelNoteMap
      ({ st with retriggerNoteMap := r.2.1, cancelNoteMap := r.2.2 },
       .sends r.1)
    else (st, .dropped)
  else if 5 ≤ qtop.msg.length ∧ qtop.msg.getD 1 0 = M_TEMPO then
    let usecsPerBeat : ℚ :=
      ((qtop.msg.getD 2 0) * 2 ^ 16 + (qtop.msg.getD 3 0) * 2 ^ 8 +
        qtop.msg.getD 4 0 : Nat)
    ({ st with currentTempo := EDouble.div (.fin 60000000)
                 (.fin usecsPerBeat)
               lastTempoChangeS := msecs
               lastTempoChangeT := ticks }, .dropped)
  else (st, .dropped)

/-! The queue_message facade (cmidiio.cpp) and MidiOut::queueMessage. -/

/-- midimsg_size (cmidiio.cpp): the standard MIDI length table. -/
def midimsg_size (status : Nat) : Nat :=
  let len := [3, 3, 3, 3, 2, 2, 3, 0].getD ((status >>> 4) &&& 7) 0
  if len ≠ 0 then len
  else if status = 0xf0 then 0
  else if status = 0xf1 ∨ status = 0xf3 then 2
  else if status = 0xf2 then 3
  else 1

/-- Outcome of the queue_message entry point as seen by the caller. -/
inductive QueueResult where
  | valueError
  | runtimeError
  | enqueued
deriving DecidableEq, Repr

/-- MidiOut::queueMessage error result (true = error): empty messages and
non-open device indices >= 0 are rejected before enqueueing. -/
def queueMessageErr (devNum : Int) (handles : List Bool)
    (msg : List Nat) : Bool :=
  if msg.length < 1 then true
  else if 0 ≤ devNum ∧ ((handles.length : Int) ≤ devNum ∨
    handles.getD devNum.toNat false = false) then true
  else false

/-- takt_queue_message (cmidiio.cpp): validate the message bytes against
the standard length table (skipped entirely for the loopback device), then
enqueue via MidiOut::queueMessage; a true error result from the latter is
reported as the device-not-open runtime error. -/
def takt_queue_message (devNum : Int) (handles : List Bool)
    (msg : List Nat) : QueueResult :=
  if devNum ≠ DEV_LOOPBACK ∧
     ¬(0 < msg.length ∧
       ((0x80 ≤ msg.getD 0 0 ∧ msg.getD 0 0 < 0xf0 ∧
          msg.length = midimsg_size (msg.getD 0 0)) ∨
        msg.getD 0 0 = 0xf0 ∨ msg.getD 0 0 = 0xff)) then
    .valueError
  else if queueMessageErr devNum handles msg then .runtimeError
  else .enqueued

/-! Reachable NoteMap states for the pile-count invariant. -/

/-- NoteMap states reachable from the empty map by the operations the
engine performs: push, pop, set with count 1, clear, the ranged clear and
the erasure part of clearAndCall. -/
inductive NMReachable : NoteMap → Prop where
  | empty : NMReachable ⟨[]⟩
  | push (d tk ch n : Int) {m : NoteMap} :
      NMReachable m → NMReachable (m.push d tk ch n).2
  | pop (d tk ch n : Int) {m : NoteMap} :
      NMReachable m → NMReachable (m.pop d tk ch n).2
  | set1 (d tk ch n : Int) {m : NoteMap} :
      NMReachable m → NMReachable (m.set d tk ch n 1)
  | clear {m : NoteMap} : NMReachable m → NMReachable m.clear
  | clearChan (d tk ch : Int) {m : NoteMap} :
      NMReachable m → NMReachable (m.clearChan d tk ch)
  | clearAndCall (d tk : Int) {m : NoteMap} :
      NMReachable m → NMReachable (m.clearAndCall d tk).2

/-! Spec-side definitions, written from the specification's words, used to
state C4 against the code model. -/

/-- Messages the spec expects stop_all to synthesize for one cancel-map
entry: one sustain-off for the pedal key (note -1), otherwise count
note-offs for (ch, n). -/
def entryCancelMsgs (e : NoteEntry) : List (List Nat) :=
  if e.1.n = -1 then [[0xb0 + e.1.ch.toNat, C_SUSTAIN, 0]]
  else List.replicate e.2.toNat [0x90 + e.1.ch.toNat, e.1.n.toNat, 0]

/-- The send trace the spec expects from stop_all: for every open device,
the synthesized cancellations of that device's cancel-map entries followed
by the all-notes-off / sustain-off / all-sound-off broadcast over the 16
channels. -/
def expectedStopTrace (handles : List Bool) (cmap : NoteMap) :
    List (Nat × List Nat) :=
  ((List.range handles.length).filter (fun i => handles.getD i false)).flatMap
    (fun i =>
      ((cmap.entries.filter (fun e => e.1.devNum = (i : Int))).flatMap
          entryCancelMsgs ++ stopBroadcast).map (fun m => (i, m)))

/-! Theorems. -/

/-- C2: for every tick value t and every tempo state with
tempo_bpm * tempo_scale > 0, ms_to_ticks (ticks_to_ms t) = t: the two
linear conversions around the same anchor are exact inverses (exact in the
real-arithmetic model of double arithmetic). -/
theorem ticksToMsecs_roundtrip (st : TempoState) (t : ℚ)
    (h : 0 < st.currentTempo * st.tempoScale) :
    msecsToTicks st (ticksToMsecs st (.fin t)) = .fin t := by
  have hne : st.currentTempo * st.tempoScale ≠ 0 := ne_of_gt h
  simp only [ticksToMsecs, msecsToTicks, EDouble.sub, EDouble.mul,
    EDouble.div, EDouble.add, if_neg hne]
  norm_num
  field_simp
  ring

/-- Witness for C2 at tempo 125, scale 1, anchors 0, tick 7. -/
theorem ticksToMsecs_roundtrip_witness :
    msecsToTicks ⟨125, 1, 0, 0⟩ (ticksToMsecs ⟨125, 1, 0, 0⟩ (.fin 7)) =
      .fin 7 :=
  ticksToMsecs_roundtrip ⟨125, 1, 0, 0⟩ 7 (by norm_num)

/-- C3 counterexample: with tempo 125, scale 0 and anchor
(lastTempoChangeS, lastTempoChangeT) = (0, 10), ticksToMsecs at tick 0
returns -infinity, not +infinity (the numerator (0 - 10) * 125 is
negative), refuting the claim that ticks_to_ms returns +infinity for every
tick value whenever tempo_bpm * tempo_scale = 0. -/
theorem ticksToMsecs_zero_tempo_counterexample :
    (⟨125, 0, 0, 10⟩ : TempoState).currentTempo *
        (⟨125, 0, 0, 10⟩ : TempoState).tempoScale = 0 ∧
      ticksToMsecs ⟨125, 0, 0, 10⟩ (.fin 0) = EDouble.ninf ∧
      EDouble.ninf ≠ EDouble.pinf := by
  refine ⟨by norm_num, ?_, by simp⟩
  norm_num [ticksToMsecs, EDouble.sub, EDouble.mul, EDouble.div, EDouble.add]

/-- C3 amended: when tempo_bpm * tempo_scale = 0, ticks_to_ms returns
+infinity for every tick value strictly greater than the anchor
last_change_ticks. -/
theorem ticksToMsecs_zero_tempo (st : TempoState) (t : ℚ)
    (h0 : st.currentTempo * st.tempoScale = 0)
    (hlt : st.lastTempoChangeT < t) :
    ticksToMsecs st (.fin t) = EDouble.pinf := by
  have hpos : 0 < (t - st.lastTempoChangeT) * 125 := by
    have : 0 < t - st.lastTempoChangeT := by linarith
    positivity
  have hdiv :
      ((((EDouble.fin t).sub (.fin st.lastTempoChangeT)).mul
          (.fin 125)).div
        ((EDouble.fin st.currentTempo).mul (.fin st.tempoScale))) =
        EDouble.pinf := by
    simp [EDouble.sub, EDouble.mul, EDouble.div, h0, hpos]
  unfold ticksToMsecs
  rw [hdiv]
  rfl

/-- Witness for C3 amended: tempo scale 0, tick 5 above the anchor 0. -/
theorem ticksToMsecs_zero_tempo_witness :
    ticksToMsecs ⟨125, 0, 0, 0⟩ (.fin 5) = EDouble.pinf :=
  ticksToMsecs_zero_tempo ⟨125, 0, 0, 0⟩ 5 (by norm_num) (by norm_num)

/-- C9: applying a set_tempo_scale(s) request makes the effective scale
max(s, 0), and the anchor is recomputed with the pre-change parameters so
that ms_to_ticks at the application instant is unchanged (the mapping
stays continuous). -/
theorem applyTempoScaleChange_continuous (st : TempoState) (msecs s : ℚ) :
    (applyTempoScaleChange st msecs (requestedScale s)).tempoScale =
        max s 0 ∧
      msecsToTicks (applyTempoScaleChange st msecs (requestedScale s))
          (.fin msecs) =
        msecsToTicks st (.fin msecs) := by
  constructor
  · by_cases hs : s < 0
    · simp [applyTempoScaleChange, requestedScale, hs, max_eq_right hs.le]
    · push_neg at hs
      simp [applyTempoScaleChange, requestedScale, not_lt.mpr hs,
        max_eq_left hs]
  · simp only [applyTempoScaleChange, msecsToTicks, EDouble.sub,
      EDouble.mul, EDouble.div, EDouble.add]
    norm_num

/-- C7: for queue elements whose enqueue sequence numbers differ by less
than half the 32-bit counter range, the heap comparator (time first, ties
by the signed difference of the wrapped counters) orders elements exactly
by (time, enqueue order), so dispatch is in nondecreasing tick time with
same-tick events in enqueue order even across counter wrap-around. -/
theorem queueGreater_eq_lex (t1 : ℚ) (s1 : Nat) (t2 : ℚ) (s2 : Nat)
    (h1 : (s1 : Int) - s2 < 2 ^ 31) (h2 : (s2 : Int) - s1 < 2 ^ 31) :
    (queueGreater t1 s1 t2 s2 = true ↔
      t2 < t1 ∨ (t1 = t2 ∧ s2 < s1)) := by
  have key : 0 < wrapCountDiff s1 s2 ↔ s2 < s1 := by
    have hle : s2 % 2 ^ 32 ≤ 2 ^ 32 := (Nat.mod_lt _ (by norm_num)).le
    unfold wrapCountDiff toInt32
    split_ifs with hc
    · push_cast [hle]
      omega
    · push_cast [hle]
      omega
  unfold queueGreater
  by_cases ht : t1 = t2
  · subst ht
    simp [key]
  · simp [ht]

/-- Witness for C7: two same-time elements with counters 1 and 0. -/
theorem queueGreater_eq_lex_witness : queueGreater 0 1 0 0 = true :=
  (queueGreater_eq_lex 0 1 0 0 (by norm_num) (by norm_num)).mpr
    (Or.inr ⟨rfl, by norm_num⟩)

/-! Helper lemmas about the NoteMap list operations. -/

theorem mem_insertEntry {k : NoteKey} {v : Int} {e : NoteEntry} :
    ∀ {l : List NoteEntry}, e ∈ insertEntry k v l → e ∈ l ∨ e = (k, v) := by
  intro l
  induction l with
  | nil =>
    intro h
    simp only [insertEntry, List.mem_singleton] at h
    exact Or.inr h
  | cons x xs ih =>
    intro h
    unfold insertEntry at h
    split_ifs at h with h1 h2
    · simp only [List.mem_cons] at h ⊢
      tauto
    · simp only [List.mem_cons] at h ⊢
      rcases h with h | h
      · tauto
      · rcases ih h with h' | h' <;> tauto
    · exact Or.inl h

theorem mem_updateEntry {k : NoteKey} {v : Int} {e : NoteEntry} :
    ∀ {l : List NoteEntry}, e ∈ updateEntry k v l → e ∈ l ∨ e = (k, v) := by
  intro l
  induction l with
  | nil =>
    intro h
    simp only [updateEntry, List.not_mem_nil] at h
  | cons x xs ih =>
    intro h
    unfold updateEntry at h
    split_ifs at h with h1
    · simp only [List.mem_cons] at h ⊢
      tauto
    · simp only [List.mem_cons] at h ⊢
      rcases h with h | h
      · tauto
      · rcases ih h with h' | h' <;> tauto

theorem mem_eraseEntry {k : NoteKey} {e : NoteEntry} :
    ∀ {l : List NoteEntry}, e ∈ eraseEntry k l → e ∈ l := by
  intro l
  induction l with
  | nil =>
    intro h
    simp only [eraseEntry, List.not_mem_nil] at h
  | cons x xs ih =>
    intro h
    unfold eraseEntry at h
    split_ifs at h with h1
    · exact List.mem_cons_of_mem x h
    · simp only [List.mem_cons] at h ⊢
      rcases h with h | h
      · exact Or.inl h
      · exact Or.inr (ih h)

theorem mem_eraseFirstRun {p : NoteEntry → Bool} {e : NoteEntry} :
    ∀ {l : List NoteEntry}, e ∈ eraseFirstRun p l → e ∈ l := by
  intro l
  induction l with
  | nil =>
    intro h
    simp only [eraseFirstRun, List.not_mem_nil] at h
  | cons x xs ih =>
    intro h
    unfold eraseFirstRun at h
    split_ifs at h with h1
    · exact List.mem_cons_of_mem x ((List.dropWhile_sublist p).mem h)
    · simp only [List.mem_cons] at h ⊢
      rcases h with h | h
      · exact Or.inl h
      · exact Or.inr (ih h)

/-- Unfolding of NoteMap::push at a present key. -/
theorem push_find_some {m : NoteMap} {d tk ch n : Int} {c : Int}
    (h : m.find ⟨d, tk, ch, n⟩ = some c) :
    m.push d tk ch n =
      (c, ⟨updateEntry ⟨d, tk, ch, n⟩ (c + 1) m.entries⟩) := by
  unfold NoteMap.push
  rw [h]

/-- Unfolding of NoteMap::push at an absent key. -/
theorem push_find_none {m : NoteMap} {d tk ch n : Int}
    (h : m.find ⟨d, tk, ch, n⟩ = none) :
    m.push d tk ch n = (0, ⟨insertEntry ⟨d, tk, ch, n⟩ 1 m.entries⟩) := by
  unfold NoteMap.push
  rw [h]

/-- Unfolding of NoteMap::pop at a present key. -/
theorem pop_find_some {m : NoteMap} {d tk ch n : Int} {c : Int}
    (h : m.find ⟨d, tk, ch, n⟩ = some c) :
    m.pop d tk ch n =
      if c - 1 = 0 then (0, ⟨eraseEntry ⟨d, tk, ch, n⟩ m.entries⟩)
      else (c - 1, ⟨updateEntry ⟨d, tk, ch, n⟩ (c - 1) m.entries⟩) := by
  unfold NoteMap.pop
  rw [h]

theorem find_some_mem {m : NoteMap} {k : NoteKey} {c : Int}
    (h : m.find k = some c) : (k, c) ∈ m.entries := by
  unfold NoteMap.find at h
  rcases ho : m.entries.find? (fun e => e.1 = k) with _ | e0
  · rw [ho] at h
    simp at h
  · rw [ho] at h
    simp at h
    have hmem := List.mem_of_find?_eq_some ho
    have hk := List.find?_some ho
    simp only [decide_eq_true_eq] at hk
    have : (k, c) = e0 := by
      cases e0
      simp_all
    exact this ▸ hmem

/-- NoteMap::pop of an absent key is a no-op returning 0 (stated for every
map value; C6 additionally packages this with the reachable-state
invariant). -/
theorem pop_absent (m : NoteMap) (d tk ch n : Int)
    (h : m.find ⟨d, tk, ch, n⟩ = none) : m.pop d tk ch n = (0, m) := by
  unfold NoteMap.pop
  rw [h]

/-- C6: in every NoteMap state reachable from the empty map by push, pop,
set(..., 1), clear, the ranged clear and clearAndCall, every stored pile
count is positive (hence nonnegative, and a key is present exactly when
its count is > 0), and pop of an absent key is a no-op returning 0. -/
theorem noteMap_reachable_invariant (m : NoteMap) (hr : NMReachable m) :
    (∀ e ∈ m.entries, 0 < e.2) ∧
      (∀ d tk ch n : Int, m.find ⟨d, tk, ch, n⟩ = none →
        m.pop d tk ch n = (0, m)) := by
  refine ⟨?_, fun d tk ch n h => pop_absent m d tk ch n h⟩
  induction hr with
  | empty =>
    intro e he
    exact absurd he (List.not_mem_nil e)
  | @push d tk ch n m0 hm ih =>
    intro e he
    rcases hf : m0.find ⟨d, tk, ch, n⟩ with _ | c
    · rw [push_find_none hf] at he
      rcases mem_insertEntry he with h' | h'
      · exact ih e h'
      · rw [h']
        norm_num
    · rw [push_find_some hf] at he
      have hc : 0 < c := ih _ (find_some_mem hf)
      rcases mem_updateEntry he with h' | h'
      · exact ih e h'
      · rw [h']
        simp only
        omega
  | @pop d tk ch n m0 hm ih =>
    intro e he
    rcases hf : m0.find ⟨d, tk, ch, n⟩ with _ | c
    · rw [pop_absent m0 d tk ch n hf] at he
      exact ih e he
    · rw [pop_find_some hf] at he
      have hc : 0 < c := ih _ (find_some_mem hf)
      by_cases hz : c - 1 = 0
      · rw [if_pos hz] at he
        exact ih e (mem_eraseEntry he)
      · rw [if_neg hz] at he
        rcases mem_updateEntry he with h' | h'
        · exact ih e h'
        · rw [h']
          simp only
          omega
  | @set1 d tk ch n m0 hm ih =>
    intro e he
    unfold NoteMap.set at he
    rcases mem_insertEntry he with h' | h'
    · exact ih e h'
    · rw [h']
      norm_num
  | @clear m0 hm ih =>
    intro e he
    exact absurd he (List.not_mem_nil e)
  | @clearChan d tk ch m0 hm ih =>
    intro e he
    exact ih e (mem_eraseFirstRun he)
  | @clearAndCall d tk m0 hm ih =>
    intro e he
    exact ih e (mem_eraseFirstRun he)

/-- Witness for C6: after one push on the empty map, pop at a different
key is a no-op returning 0. -/
theorem noteMap_reachable_invariant_witness :
    ((NoteMap.mk []).push 0 0 0 60).2.pop 1 0 0 60 =
      (0, ((NoteMap.mk []).push 0 0 0 60).2) :=
  (noteMap_reachable_invariant _
      (NMReachable.push 0 0 0 60 NMReachable.empty)).2 1 0 0 60 (by rfl)

/-- C8 counterexample: an empty message queued to the LOOPBACK device
skips the facade validation entirely and is rejected inside
MidiOut::queueMessage instead, so the caller sees the device-not-open
runtime error, not the bad-message value error the claim promises for
every device. -/
theorem takt_queue_message_empty_loopback_counterexample :
    takt_queue_message DEV_LOOPBACK [] [] = QueueResult.runtimeError ∧
      takt_queue_message DEV_LOOPBACK [] [] ≠ QueueResult.valueError := by
  constructor
  · rfl
  · intro h
    simp [takt_queue_message, queueMessageErr, DEV_LOOPBACK] at h

/-- C8 amended: an empty message, or a short message (first byte in
0x80-0xEF) of non-standard length, is reported synchronously as a
bad-message value error and not enqueued, for every device except
LOOPBACK; for LOOPBACK the validation is skipped entirely, so any
non-empty byte string is accepted while an empty message is reported as
the device-not-open runtime error; statuses 0xF0 and 0xFF are accepted
with any length; and queueing a well-formed message to a non-open device
with d >= 0 is reported as the distinct device-not-open runtime error. -/
theorem takt_queue_message_validation (d : Int) (handles : List Bool)
    (msg : List Nat) :
    (d ≠ DEV_LOOPBACK → msg = [] →
      takt_queue_message d handles msg = .valueError) ∧
    (d = DEV_LOOPBACK → msg = [] →
      takt_queue_message d handles msg = .runtimeError) ∧
    (d ≠ DEV_LOOPBACK → 0x80 ≤ msg.getD 0 0 → msg.getD 0 0 < 0xf0 →
      msg.length ≠ midimsg_size (msg.getD 0 0) →
      takt_queue_message d handles msg = .valueError) ∧
    (d = DEV_LOOPBACK → 0 < msg.length →
      takt_queue_message d handles msg = .enqueued) ∧
    ((msg.getD 0 0 = 0xf0 ∨ msg.getD 0 0 = 0xff) → 0 < msg.length →
      takt_queue_message d handles msg ≠ .valueError) ∧
    (0 ≤ d →
      ((handles.length : Int) ≤ d ∨ handles.getD d.toNat false = false) →
      0 < msg.length →
      ((0x80 ≤ msg.getD 0 0 ∧ msg.getD 0 0 < 0xf0 ∧
          msg.length = midimsg_size (msg.getD 0 0)) ∨
        msg.getD 0 0 = 0xf0 ∨ msg.getD 0 0 = 0xff) →
      takt_queue_message d handles msg = .runtimeError) := by
  refine ⟨?_, ?_, ?_, ?_, ?_, ?_⟩
  · intro hd hm
    subst hm
    simp [takt_queue_message, hd]
  · intro hd hm
    subst hd hm
    simp [takt_queue_message, queueMessageErr]
  · intro hd h1 h2 h3
    have hvalid : ¬(0 < msg.length ∧
        ((0x80 ≤ msg.getD 0 0 ∧ msg.getD 0 0 < 0xf0 ∧
            msg.length = midimsg_size (msg.getD 0 0)) ∨
          msg.getD 0 0 = 0xf0 ∨ msg.getD 0 0 = 0xff)) := by
      rintro ⟨-, (⟨-, -, hlen⟩ | hf0 | hff)⟩
      · exact h3 hlen
      · omega
      · omega
    simp only [takt_queue_message, if_pos (And.intro hd hvalid)]
  · intro hd hm
    subst hd
    have : ¬msg.length < 1 := by omega
    simp [takt_queue_message, queueMessageErr, DEV_LOOPBACK, this]
  · intro hb hm h
    rw [takt_queue_message] at h
    split_ifs at h with h1 h2
    · rcases h1 with ⟨-, h1⟩
      exact h1 ⟨hm, Or.inr hb⟩
  · intro hd herr hm hval
    have hcond : ¬(d ≠ DEV_LOOPBACK ∧
        ¬(0 < msg.length ∧
          ((0x80 ≤ msg.getD 0 0 ∧ msg.getD 0 0 < 0xf0 ∧
              msg.length = midimsg_size (msg.getD 0 0)) ∨
            msg.getD 0 0 = 0xf0 ∨ msg.getD 0 0 = 0xff))) := by
      rintro ⟨-, hno⟩
      exact hno ⟨hm, hval⟩
    have herr2 : queueMessageErr d handles msg = true := by
      unfold queueMessageErr
      have : ¬msg.length < 1 := by omega
      rw [if_neg this, if_pos (And.intro hd herr)]
    simp only [takt_queue_message, if_neg hcond, herr2, if_pos rfl]
    rfl

/-- Witness for C8: the six cases at concrete inputs — empty to device 0,
empty to LOOPBACK, wrong-length note-on to device 0, wrong-length note-on
to LOOPBACK, sysex to an open device 0, and a valid note-on to a closed
device 0. -/
theorem takt_queue_message_validation_witness :
    takt_queue_message 0 [] [] = .valueError ∧
      takt_queue_message DEV_LOOPBACK [] [] = .runtimeError ∧
      takt_queue_message 0 [true] [0x90, 60] = .valueError ∧
      takt_queue_message DEV_LOOPBACK [] [0x90, 60] = .enqueued ∧
      takt_queue_message 0 [true] [0xf0, 1, 2] ≠ .valueError ∧
      takt_queue_message 0 [false] [0x90, 60, 100] = .runtimeError := by
  refine ⟨?_, ?_, ?_, ?_, ?_, ?_⟩
  · exact (takt_queue_message_validation 0 [] []).1 (by decide) rfl
  · exact (takt_queue_message_validation DEV_LOOPBACK [] []).2.1 rfl rfl
  · exact (takt_queue_message_validation 0 [true] [0x90, 60]).2.2.1
      (by decide) (by norm_num) (by norm_num) (by decide)
  · exact (takt_queue_message_validation DEV_LOOPBACK []
      [0x90, 60]).2.2.2.1 rfl (by norm_num)
  · exact (takt_queue_message_validation 0 [true] [0xf0, 1, 2]).2.2.2.2.1
      (by norm_num) (by norm_num)
  · exact (takt_queue_message_validation 0 [false]
      [0x90, 60, 100]).2.2.2.2.2 (by norm_num) (by norm_num) (by norm_num)
      (by decide)

/-- C1: with retrigger enabled, a true note-on (status 0x9X, velocity > 0)
always pushes the cancel map, and when the retrigger push returns a prior
count >= 1 the sends are exactly the synthetic note-off (same bytes,
velocity 0) immediately followed by the note-on; a note-off (status 0x8X
or note-on with velocity 0) always pops the cancel map, and when the
retrigger pop returns a count >= 1 the message is not sent at all. -/
theorem midiOutSendMessage_retrigger (rmap cmap : NoteMap)
    (devNum tk : Int) (msg : List Nat) :
    (msg.getD 0 0 &&& 0xf0 = 0x90 → msg.getD 2 0 ≠ 0 →
      (midiOutSendMessage true devNum tk msg rmap cmap).2.2 =
          (cmap.push devNum tk ((msg.getD 0 0 &&& 0xf : Nat) : Int)
            (msg.getD 1 0 : Int)).2 ∧
        (1 ≤ (rmap.push devNum 0 ((msg.getD 0 0 &&& 0xf : Nat) : Int)
            (msg.getD 1 0 : Int)).1 →
          (midiOutSendMessage true devNum tk msg rmap cmap).1 =
            [msg.set 2 0, msg])) ∧
    (msg.getD 0 0 &&& 0xf0 = 0x80 ∨
        (msg.getD 0 0 &&& 0xf0 = 0x90 ∧ msg.getD 2 0 = 0) →
      (midiOutSendMessage true devNum tk msg rmap cmap).2.2 =
          (cmap.pop devNum tk ((msg.getD 0 0 &&& 0xf : Nat) : Int)
            (msg.getD 1 0 : Int)).2 ∧
        (1 ≤ (rmap.pop devNum 0 ((msg.getD 0 0 &&& 0xf : Nat) : Int)
            (msg.getD 1 0 : Int)).1 →
          (midiOutSendMessage true devNum tk msg rmap cmap).1 = [])) := by
  constructor
  · intro h9 h2
    have hno : ¬((msg.getD 0 0 &&& 0xf0 = 0x90 ∧ msg.getD 2 0 = 0) ∨
        msg.getD 0 0 &&& 0xf0 = 0x80) := by
      rintro (⟨-, hz⟩ | h8)
      · exact h2 hz
      · rw [h9] at h8
        norm_num at h8
    constructor
    · simp only [midiOutSendMessage, if_neg hno, if_pos h9]
    · intro hprior
      simp only [midiOutSendMessage, if_neg hno, if_pos h9]
      simp only [List.getD_eq_getElem?_getD] at hprior
      simp [hprior]
  · intro hoff
    have hcond : (msg.getD 0 0 &&& 0xf0 = 0x90 ∧ msg.getD 2 0 = 0) ∨
        msg.getD 0 0 &&& 0xf0 = 0x80 := by tauto
    constructor
    · simp only [midiOutSendMessage, if_pos hcond]
    · intro hpop
      simp only [midiOutSendMessage, if_pos hcond]
      simp only [List.getD_eq_getElem?_getD] at hpop
      simp [hpop]

/-- Witness for C1: a note-on at an already-sounding pitch produces the
synthetic note-off followed by the note-on, and a note-off with a
remaining pile count produces no output. -/
theorem midiOutSendMessage_retrigger_witness :
    (midiOutSendMessage true 0 5 [0x90, 60, 100]
        ⟨[(⟨0, 0, 0, 60⟩, 1)]⟩ ⟨[]⟩).1 = [[0x90, 60, 0], [0x90, 60, 100]] ∧
      (midiOutSendMessage true 0 5 [0x80, 60, 0]
        ⟨[(⟨0, 0, 0, 60⟩, 2)]⟩ ⟨[]⟩).1 = [] := by
  constructor
  · have h := ((midiOutSendMessage_retrigger ⟨[(⟨0, 0, 0, 60⟩, 1)]⟩ ⟨[]⟩
      0 5 [0x90, 60, 100]).1 (by decide) (by decide)).2 (by decide)
    rw [h]
    rfl
  · exact ((midiOutSendMessage_retrigger ⟨[(⟨0, 0, 0, 60⟩, 2)]⟩ ⟨[]⟩
      0 5 [0x80, 60, 0]).2 (Or.inl (by decide))).2 (by decide)

/-- C10: a queued 0xFF meta message with subtype 0x51 and length >= 5
changes the current tempo (re-anchoring at the scheduled time) for every
device number except LOOPBACK — including DUMMY and non-open devices —
with nothing sent; the new tempo is 6e7 divided by the 24-bit
microseconds-per-beat value, +infinity when that value is 0; whereas any
non-meta message addressed to DUMMY or to a non-open device is silently
dropped with the state unchanged. -/
theorem dispatchOne_tempo_and_drop (st : DispatchState) (msecs ticks : ℚ)
    (qtop : MoQueueElm) :
    (qtop.devNum ≠ DEV_LOOPBACK → qtop.msg.getD 0 0 = 0xff →
      qtop.msg.getD 1 0 = M_TEMPO → 5 ≤ qtop.msg.length →
      dispatchOne st msecs ticks qtop =
        ({ st with
            currentTempo :=
              if (qtop.msg.getD 2 0) * 2 ^ 16 + (qtop.msg.getD 3 0) * 2 ^ 8
                  + qtop.msg.getD 4 0 = 0 then EDouble.pinf
              else .fin (60000000 /
                (((qtop.msg.getD 2 0) * 2 ^ 16 + (qtop.msg.getD 3 0) * 2 ^ 8
                  + qtop.msg.getD 4 0 : Nat) : ℚ))
            lastTempoChangeS := msecs
            lastTempoChangeT := ticks }, .dropped)) ∧
    ((qtop.devNum = DEV_DUMMY ∨
        (0 ≤ qtop.devNum ∧
          st.midiOutHandles.getD qtop.devNum.toNat false = false)) →
      qtop.msg.getD 0 0 ≠ 0xff →
      dispatchOne st msecs ticks qtop = (st, .dropped)) := by
  constructor
  · intro hdev hff hmt hlen
    have hnotff : ¬qtop.msg.getD 0 0 ≠ 0xff := by
      intro h
      exact h hff
    simp only [dispatchOne, if_neg hdev, if_neg hnotff,
      if_pos (And.intro hlen hmt)]
    by_cases hz : (qtop.msg.getD 2 0) * 2 ^ 16 +
        (qtop.msg.getD 3 0) * 2 ^ 8 + qtop.msg.getD 4 0 = 0
    · rw [if_pos hz, hz]
      norm_num [EDouble.div]
    · rw [if_neg hz]
      have hq : (((qtop.msg.getD 2 0) * 2 ^ 16 + (qtop.msg.getD 3 0) * 2 ^ 8
          + qtop.msg.getD 4 0 : Nat) : ℚ) ≠ 0 := by
        exact_mod_cast hz
      simp only [EDouble.div, if_neg hq]
  · intro hdrop hnotff
    have hdev : qtop.devNum ≠ DEV_LOOPBACK := by
      unfold DEV_LOOPBACK
      rcases hdrop with h | ⟨h, -⟩
      · rw [h]
        unfold DEV_DUMMY
        omega
      · omega
    have hclosed : ¬(0 ≤ qtop.devNum ∧
        st.midiOutHandles.getD qtop.devNum.toNat false = true) := by
      rcases hdrop with h | ⟨-, h⟩
      · rintro ⟨hge, -⟩
        rw [h] at hge
        exact absurd hge (by norm_num [DEV_DUMMY])
      · rintro ⟨-, hopen⟩
        rw [h] at hopen
        exact Bool.false_ne_true hopen
    simp only [dispatchOne, if_neg hdev, if_pos hnotff, if_neg hclosed]

/-- Witness for C10: a tempo meta of 500000 usec/beat dispatched for the
non-open device 0 sets the tempo to 120 BPM, a zero-usec tempo meta sets
it to +infinity, and a note-on to DUMMY is dropped. -/
theorem dispatchOne_tempo_and_drop_witness :
    (dispatchOne ⟨[], true, ⟨[]⟩, ⟨[]⟩, .fin 125, 0, 0⟩ 3 3
        ⟨0, 3, 0, [0xff, 0x51, 0x07, 0xa1, 0x20], 0⟩).1.currentTempo =
      .fin 120 ∧
    (dispatchOne ⟨[], true, ⟨[]⟩, ⟨[]⟩, .fin 125, 0, 0⟩ 3 3
        ⟨0, 3, 0, [0xff, 0x51, 0, 0, 0], 0⟩).1.currentTempo =
      EDouble.pinf ∧
    dispatchOne ⟨[], true, ⟨[]⟩, ⟨[]⟩, .fin 125, 0, 0⟩ 3 3
        ⟨-1, 3, 0, [0x90, 60, 100], 0⟩ =
      (⟨[], true, ⟨[]⟩, ⟨[]⟩, .fin 125, 0, 0⟩, .dropped) := by
  refine ⟨?_, ?_, ?_⟩
  · have h := (dispatchOne_tempo_and_drop
      ⟨[], true, ⟨[]⟩, ⟨[]⟩, .fin 125, 0, 0⟩ 3 3
      ⟨0, 3, 0, [0xff, 0x51, 0x07, 0xa1, 0x20], 0⟩).1
      (by decide) (by decide) (by decide) (by decide)
    rw [h]
    norm_num
  · have h := (dispatchOne_tempo_and_drop
      ⟨[], true, ⟨[]⟩, ⟨[]⟩, .fin 125, 0, 0⟩ 3 3
      ⟨0, 3, 0, [0xff, 0x51, 0, 0, 0], 0⟩).1
      (by decide) (by decide) (by decide) (by decide)
    rw [h]
    norm_num
  · exact (dispatchOne_tempo_and_drop
      ⟨[], true, ⟨[]⟩, ⟨[]⟩, .fin 125, 0, 0⟩ 3 3
      ⟨-1, 3, 0, [0x90, 60, 100], 0⟩).2 (Or.inl (by decide)) (by decide)

/-! Correctness of the two-pointer partition loop of doCancelMessages. -/

theorem cancelPartition_cons_neg {p : MoQueueElm → Bool} {x : MoQueueElm}
    {xs : List MoQueueElm} (hx : p x = false) :
    cancelPartition p (x :: xs) =
      (x :: (cancelPartition p xs).1, (cancelPartition p xs).2) := by
  rw [cancelPartition]
  simp [hx]

theorem cancelPartition_cons_pos_nil {p : MoQueueElm → Bool}
    {x : MoQueueElm} (hx : p x = true) :
    cancelPartition p [x] = ([], [x]) := by
  rw [cancelPartition]
  simp [hx]

theorem cancelPartition_cons_pos_last_pos {p : MoQueueElm → Bool}
    {x : MoQueueElm} {xs : List MoQueueElm} (hx : p x = true)
    (hxs : xs ≠ []) (hy : p (xs.getLast hxs) = true) :
    cancelPartition p (x :: xs) =
      ((cancelPartition p (x :: xs.dropLast)).1,
        xs.getLast hxs :: (cancelPartition p (x :: xs.dropLast)).2) := by
  rw [cancelPartition]
  rw [if_pos hx, dif_neg hxs, if_pos hy]

theorem cancelPartition_cons_pos_last_neg {p : MoQueueElm → Bool}
    {x : MoQueueElm} {xs : List MoQueueElm} (hx : p x = true)
    (hxs : xs ≠ []) (hy : p (xs.getLast hxs) = false) :
    cancelPartition p (x :: xs) =
      (xs.getLast hxs :: (cancelPartition p xs.dropLast).1,
        x :: (cancelPartition p xs.dropLast).2) := by
  rw [cancelPartition]
  rw [if_pos hx, dif_neg hxs, if_neg (by simp [hy])]

/-- The partition loop returns a permutation of the queue, split into the
non-matching kept prefix and the matching dropped elements. -/
theorem cancelPartition_spec (p : MoQueueElm → Bool) (l : List MoQueueElm) :
    ((cancelPartition p l).1 ++ (cancelPartition p l).2).Perm l ∧
      (∀ e ∈ (cancelPartition p l).1, p e = false) ∧
      (∀ e ∈ (cancelPartition p l).2, p e = true) := by
  induction l using cancelPartition.induct p with
  | case1 =>
    refine ⟨by simp [cancelPartition], ?_, ?_⟩
    · intro e he
      simp [cancelPartition] at he
    · intro e he
      simp [cancelPartition] at he
  | case2 x hx =>
    refine ⟨by simp [cancelPartition_cons_pos_nil hx], ?_, ?_⟩
    · intro e he
      simp [cancelPartition_cons_pos_nil hx] at he
    · intro e he
      simp [cancelPartition_cons_pos_nil hx] at he
      rw [he]
      exact hx
  | case3 x xs hx hxs hy ih =>
    have hsplit : xs.dropLast ++ [xs.getLast hxs] = xs :=
      List.dropLast_append_getLast hxs
    rw [cancelPartition_cons_pos_last_pos hx hxs hy]
    refine ⟨?_, ih.2.1, ?_⟩
    · refine List.perm_middle.trans ?_
      refine (ih.1.cons (xs.getLast hxs)).trans ?_
      refine (List.Perm.swap x (xs.getLast hxs) xs.dropLast).trans ?_
      refine ((List.perm_append_singleton (xs.getLast hxs)
        xs.dropLast).symm.cons x).trans ?_
      rw [hsplit]
    · intro e he
      rcases List.mem_cons.mp he with he | he
      · rw [he]
        exact hy
      · exact ih.2.2 e he
  | case4 x xs hx hxs hy ih =>
    have hsplit : xs.dropLast ++ [xs.getLast hxs] = xs :=
      List.dropLast_append_getLast hxs
    have hy' : p (xs.getLast hxs) = false := by
      simpa using hy
    rw [cancelPartition_cons_pos_last_neg hx hxs hy']
    refine ⟨?_, ?_, ?_⟩
    · have h1 : ((xs.getLast hxs :: (cancelPartition p xs.dropLast).1) ++
          x :: (cancelPartition p xs.dropLast).2).Perm
          (x :: (xs.getLast hxs :: (cancelPartition p xs.dropLast).1 ++
            (cancelPartition p xs.dropLast).2)) := List.perm_middle
      refine h1.trans ?_
      have h2 : (xs.getLast hxs :: ((cancelPartition p xs.dropLast).1 ++
          (cancelPartition p xs.dropLast).2)).Perm
          (xs.getLast hxs :: xs.dropLast) := ih.1.cons _
      refine ((h2.cons x).trans ?_)
      refine ((List.perm_append_singleton (xs.getLast hxs)
        xs.dropLast).symm.cons x).trans ?_
      rw [hsplit]
    · intro e he
      rcases List.mem_cons.mp he with he | he
      · rw [he]
        exact hy'
      · exact ih.2.1 e he
    · intro e he
      rcases List.mem_cons.mp he with he | he
      · rw [he]
        exact hx
      · exact ih.2.2 e he
  | case5 x xs hx ih =>
    have hx' : p x = false := by
      simpa using hx
    rw [cancelPartition_cons_neg hx']
    refine ⟨?_, ?_, ih.2.2⟩
    · simpa using ih.1.cons x
    · intro e he
      rcases List.mem_cons.mp he with he | he
      · rw [he]
        exact hx'
      · exact ih.2.1 e he

/-- The kept prefix of the partition is, as a multiset, exactly the
non-matching part of the queue. -/
theorem cancelPartition_fst_perm_filter (p : MoQueueElm → Bool)
    (l : List MoQueueElm) :
    (cancelPartition p l).1.Perm (l.filter (fun e => !p e)) := by
  obtain ⟨hperm, hkeep, hdrop⟩ := cancelPartition_spec p l
  have hf : (((cancelPartition p l).1 ++ (cancelPartition p l).2).filter
      (fun e => !p e)).Perm (l.filter (fun e => !p e)) :=
    hperm.filter _
  rw [List.filter_append] at hf
  have h1 : (cancelPartition p l).1.filter (fun e => !p e) =
      (cancelPartition p l).1 :=
    List.filter_eq_self.mpr (fun a ha => by simp [hkeep a ha])
  have h2 : (cancelPartition p l).2.filter (fun e => !p e) = [] :=
    List.filter_eq_nil_iff.mpr (fun a ha => by simp [hdrop a ha])
  rw [h1, h2, List.append_nil] at hf
  exact hf

/-! The heap order at unbounded sequence numbers is a total preorder. -/

theorem elmNotGreater_iff (a b : MoQueueElm) :
    elmNotGreater a b ↔
      a.time < b.time ∨ (a.time = b.time ∧ a.seq ≤ b.seq) := by
  unfold elmNotGreater elmGreater
  constructor
  · intro h
    push_neg at h
    obtain ⟨h1, h2⟩ := h
    rcases eq_or_lt_of_le h1 with he | hl
    · exact Or.inr ⟨he, h2 he⟩
    · exact Or.inl hl
  · rintro (h | ⟨he, hs⟩)
    · rintro (hh | ⟨hhe, -⟩)
      · linarith
      · exact absurd hhe (by linarith)
    · rintro (hh | ⟨-, hhs⟩)
      · exact absurd hh (by linarith)
      · omega

instance : IsTotal MoQueueElm elmNotGreater :=
  ⟨fun a b => by
    rw [elmNotGreater_iff, elmNotGreater_iff]
    rcases lt_trichotomy a.time b.time with h | h | h
    · exact Or.inl (Or.inl h)
    · rcases Nat.le_total a.seq b.seq with hs | hs
      · exact Or.inl (Or.inr ⟨h, hs⟩)
      · exact Or.inr (Or.inr ⟨h.symm, hs⟩)
    · exact Or.inr (Or.inl h)⟩

instance : IsTrans MoQueueElm elmNotGreater :=
  ⟨fun a b c hab hbc => by
    rw [elmNotGreater_iff] at hab hbc ⊢
    rcases hab with h1 | ⟨he1, hs1⟩ <;> rcases hbc with h2 | ⟨he2, hs2⟩
    · exact Or.inl (h1.trans h2)
    · exact Or.inl (he2 ▸ h1)
    · exact Or.inl (he1 ▸ h2)
    · exact Or.inr ⟨he1.trans he2, le_trans hs1 hs2⟩⟩

/-- A fully sorted array satisfies the binary-heap property. -/
theorem sorted_isHeap {l : List MoQueueElm}
    (h : l.Sorted elmNotGreater) : isHeap l := by
  intro i j hcase hi hj
  exact h.rel_get_of_lt (by
    rw [Fin.mk_lt_mk]
    omega)

theorem make_heap_perm (l : List MoQueueElm) : (make_heap l).Perm l :=
  List.perm_insertionSort _ _

theorem make_heap_isHeap (l : List MoQueueElm) : isHeap (make_heap l) :=
  sorted_isHeap (List.sorted_insertionSort _ _)

/-! In a strictly sorted note map, the first-run erase of a whole-device
match removes every entry of that device (the matches are contiguous). -/

theorem NoteKey.lt_devNum_le {a b : NoteKey} (h : a.lt b) :
    a.devNum ≤ b.devNum := by
  unfold NoteKey.lt at h
  rcases h with h | ⟨he, -⟩
  · exact le_of_lt h
  · exact le_of_eq he

theorem dropWhile_no_dev {p : NoteEntry → Bool} {d : Int}
    (hp : ∀ e, p e = true ↔ e.1.devNum = d) :
    ∀ xs : List NoteEntry, xs.Pairwise (fun a b => a.1.lt b.1) →
      (∀ y ∈ xs, d ≤ y.1.devNum) →
      ∀ e ∈ xs.dropWhile p, p e = false := by
  intro xs
  induction xs with
  | nil =>
    intro _ _ e he
    simp at he
  | cons y ys ih =>
    intro hpair hge e he
    by_cases py : p y = true
    · rw [List.dropWhile_cons_of_pos py] at he
      exact ih hpair.of_cons
        (fun z hz => hge z (List.mem_cons_of_mem _ hz)) e he
    · rw [List.dropWhile_cons_of_neg (by simpa using py)] at he
      rcases List.mem_cons.mp he with he | he
      · rw [he]
        simpa using py
      · have hlt : y.1.lt e.1 := (List.pairwise_cons.mp hpair).1 e he
        have hdy : d ≤ y.1.devNum := hge y (List.mem_cons_self _ _)
        have hne : ¬y.1.devNum = d := fun hh => py ((hp y).mpr hh)
        have hgt : d < e.1.devNum :=
          lt_of_lt_of_le (lt_of_le_of_ne hdy (Ne.symm hne))
            (NoteKey.lt_devNum_le hlt)
        cases hpe : p e with
        | false => rfl
        | true => exact absurd ((hp e).mp hpe) (by omega)

theorem eraseFirstRun_no_match {p : NoteEntry → Bool} {d : Int}
    (hp : ∀ e, p e = true ↔ e.1.devNum = d) :
    ∀ l : List NoteEntry, l.Pairwise (fun a b => a.1.lt b.1) →
      ∀ e ∈ eraseFirstRun p l, p e = false := by
  intro l
  induction l with
  | nil =>
    intro _ e he
    simp [eraseFirstRun] at he
  | cons x xs ih =>
    intro hpair e he
    unfold eraseFirstRun at he
    split_ifs at he with hx
    · have hdx : x.1.devNum = d := (hp x).mp hx
      refine dropWhile_no_dev hp xs hpair.of_cons ?_ e he
      intro y hy
      have := NoteKey.lt_devNum_le ((List.pairwise_cons.mp hpair).1 y hy)
      omega
    · rcases List.mem_cons.mp he with he | he
      · rw [he]
        simpa using hx
      · exact ih hpair.of_cons e he

/-! The event queue and cancel map after doCancelMessages. -/

theorem doCancelMessages_queue (devNum tk : Int) (st : MidiOutState) :
    (doCancelMessages devNum tk st).1.moEventQueue =
      make_heap (cancelPartition (cancelMatch devNum tk)
        st.moEventQueue).1 := by
  unfold doCancelMessages
  split_ifs <;> rfl

theorem doCancelMessages_cmap_open (devNum tk : Int) (st : MidiOutState)
    (h : 0 ≤ devNum ∧ devNum < (st.midiOutHandles.length : Int) ∧
      st.midiOutHandles.getD devNum.toNat false = true) :
    (doCancelMessages devNum tk st).1.cancelNoteMap =
      ⟨eraseFirstRun (matchesClear devNum tk) st.cancelNoteMap.entries⟩ := by
  unfold doCancelMessages
  rw [if_pos h]
  rfl

/-- C5 counterexample: doCancelMessages runs clearAndCall on the cancel
map only when the device is open (the handle check guards the note-off
sends), so after cancel_messages(0, ALL_TRACKS) on a state whose device 0
is present but closed, the cancel map still holds an entry for device 0 —
refuting the unconditional "the cancel map holds no entry for device d". -/
theorem doCancelMessages_closed_device_counterexample :
    (doCancelMessages 0 ALL_TRACKS
        ⟨[false], [], true, ⟨[]⟩, ⟨[(⟨0, 0, 0, 60⟩, 1)]⟩,
          ⟨125, 1, 0, 0⟩⟩).1.cancelNoteMap.entries =
      [(⟨0, 0, 0, 60⟩, 1)] ∧
    (⟨[false], [], true, ⟨[]⟩, ⟨[(⟨0, 0, 0, 60⟩, 1)]⟩, ⟨125, 1, 0, 0⟩⟩ :
        MidiOutState).midiOutHandles.getD 0 false = false := by
  constructor
  · rfl
  · rfl

/-- C5 amended: after cancel_messages(d, tk) every heap element with
device d and matching track is removed, every other element is retained
(the queue is a permutation of the non-matching part) and the heap
property is restored; and for tk = ALL_TRACKS no event with device d
remains in the queue, while the cancel map holds no entry for device d
provided that device d is open (for a closed or out-of-range device the
clearAndCall step is skipped and its entries remain). -/
theorem doCancelMessages_spec (devNum tk : Int) (st : MidiOutState) :
    ((doCancelMessages devNum tk st).1.moEventQueue).Perm
        (st.moEventQueue.filter (fun e => !cancelMatch devNum tk e)) ∧
      isHeap (doCancelMessages devNum tk st).1.moEventQueue ∧
      (tk = ALL_TRACKS →
        ∀ e ∈ (doCancelMessages devNum tk st).1.moEventQueue,
          e.devNum ≠ devNum) ∧
      (st.cancelNoteMap.entries.Pairwise (fun a b => a.1.lt b.1) →
        tk = ALL_TRACKS → 0 ≤ devNum →
        devNum < (st.midiOutHandles.length : Int) →
        st.midiOutHandles.getD devNum.toNat false = true →
        ∀ e ∈ (doCancelMessages devNum tk st).1.cancelNoteMap.entries,
          e.1.devNum ≠ devNum) := by
  have hqueue := doCancelMessages_queue devNum tk st
  have hperm : ((doCancelMessages devNum tk st).1.moEventQueue).Perm
      (st.moEventQueue.filter (fun e => !cancelMatch devNum tk e)) := by
    rw [hqueue]
    exact (make_heap_perm _).trans
      (cancelPartition_fst_perm_filter _ _)
  refine ⟨hperm, ?_, ?_, ?_⟩
  · rw [hqueue]
    exact make_heap_isHeap _
  · intro htk e he
    subst htk
    have hmem : e ∈ st.moEventQueue.filter
        (fun e => !cancelMatch devNum ALL_TRACKS e) :=
      hperm.mem_iff.mp he
    have hval := List.of_mem_filter hmem
    simp only [cancelMatch, ALL_TRACKS] at hval
    simp at hval
    exact hval
  · intro hsort htk h0 hlen hopen e he
    subst htk
    rw [doCancelMessages_cmap_open devNum ALL_TRACKS st ⟨h0, hlen, hopen⟩]
      at he
    have hp : ∀ e : NoteEntry,
        matchesClear devNum ALL_TRACKS e = true ↔ e.1.devNum = devNum := by
      intro e
      simp [matchesClear, ALL_TRACKS]
    have hfalse := eraseFirstRun_no_match hp st.cancelNoteMap.entries
      hsort e he
    intro hcontra
    rw [(hp e).mpr hcontra] at hfalse
    simp at hfalse

/-- Witness for C5: on a state with one open device 0, a two-element queue
(one event for device 0, one for device 1) and one sounding note of
device 0, cancel_messages(0, ALL_TRACKS) leaves the device-1 event as the
whole queue and no cancel-map entry for device 0. -/
theorem doCancelMessages_spec_witness :
    ((doCancelMessages 0 ALL_TRACKS
        ⟨[true], [⟨0, 5, 0, [0x90, 60, 100], 7⟩,
            ⟨1, 3, 1, [0x90, 61, 100], 0⟩], true, ⟨[]⟩,
          ⟨[(⟨0, 0, 0, 60⟩, 1)]⟩,
          ⟨125, 1, 0, 0⟩⟩).1.moEventQueue).Perm
        [⟨1, 3, 1, [0x90, 61, 100], 0⟩] ∧
      (⟨⟨0, 0, 0, 60⟩, 1⟩ : NoteEntry) ∉
        (doCancelMessages 0 ALL_TRACKS
          ⟨[true], [⟨0, 5, 0, [0x90, 60, 100], 7⟩,
              ⟨1, 3, 1, [0x90, 61, 100], 0⟩], true, ⟨[]⟩,
            ⟨[(⟨0, 0, 0, 60⟩, 1)]⟩,
            ⟨125, 1, 0, 0⟩⟩).1.cancelNoteMap.entries := by
  constructor
  · have h := (doCancelMessages_spec 0 ALL_TRACKS
      ⟨[true], [⟨0, 5, 0, [0x90, 60, 100], 7⟩,
          ⟨1, 3, 1, [0x90, 61, 100], 0⟩], true, ⟨[]⟩,
        ⟨[(⟨0, 0, 0, 60⟩, 1)]⟩, ⟨125, 1, 0, 0⟩⟩).1
    refine h.trans ?_
    rw [show ([⟨0, 5, 0, [0x90, 60, 100], 7⟩,
        ⟨1, 3, 1, [0x90, 61, 100], 0⟩] : List MoQueueElm).filter
        (fun e => !cancelMatch 0 ALL_TRACKS e) =
      [⟨1, 3, 1, [0x90, 61, 100], 0⟩] from by decide]
  · intro hmem
    exact (doCancelMessages_spec 0 ALL_TRACKS
      ⟨[true], [⟨0, 5, 0, [0x90, 60, 100], 7⟩,
          ⟨1, 3, 1, [0x90, 61, 100], 0⟩], true, ⟨[]⟩,
        ⟨[(⟨0, 0, 0, 60⟩, 1)]⟩, ⟨125, 1, 0, 0⟩⟩).2.2.2
      (by simp) rfl (by norm_num) (by norm_num) rfl _ hmem rfl

/-! The send trace of doStopAll. -/

theorem flatMap_congr {α β : Type} {f g : α → List β} :
    ∀ {l : List α}, (∀ a ∈ l, f a = g a) → l.flatMap f = l.flatMap g := by
  intro l
  induction l with
  | nil => intro _; rfl
  | cons x xs ih =>
    intro h
    simp only [List.flatMap_cons, h x (List.mem_cons_self x xs),
      ih (fun a ha => h a (List.mem_cons_of_mem x ha))]

theorem runCancelCalls_fst (retrig : Bool) (d : Int) :
    ∀ (calls : List NoteEntry) (rmap : NoteMap),
      (runCancelCalls retrig d calls rmap).1 =
        calls.flatMap entryCancelMsgs := by
  intro calls
  induction calls with
  | nil =>
    intro rmap
    rfl
  | cons e rest ih =>
    intro rmap
    have hc : ∀ rm : NoteMap,
        (cancelFunc retrig d e.1.ch e.1.n e.2 rm).1 = entryCancelMsgs e := by
      intro rm
      by_cases hn : e.1.n = -1 <;> simp [cancelFunc, entryCancelMsgs, hn]
    simp only [runCancelCalls, hc, ih, List.flatMap_cons]

theorem filter_dropWhile_of_disjoint {p q : NoteEntry → Bool}
    (hpq : ∀ e, p e = true → q e = false) :
    ∀ l : List NoteEntry, (l.dropWhile p).filter q = l.filter q := by
  intro l
  induction l with
  | nil => rfl
  | cons x xs ih =>
    by_cases hx : p x = true
    · rw [List.dropWhile_cons_of_pos hx, ih, List.filter_cons,
        if_neg (by simp [hpq x hx])]
    · rw [List.dropWhile_cons_of_neg (by simpa using hx)]

theorem filter_eraseFirstRun_of_disjoint {p q : NoteEntry → Bool}
    (hpq : ∀ e, p e = true → q e = false) :
    ∀ l : List NoteEntry, (eraseFirstRun p l).filter q = l.filter q := by
  intro l
  induction l with
  | nil => rfl
  | cons x xs ih =>
    unfold eraseFirstRun
    by_cases hx : p x = true
    · rw [if_pos hx, filter_dropWhile_of_disjoint hpq, List.filter_cons,
        if_neg (by simp [hpq x hx])]
    · rw [if_neg hx, List.filter_cons, List.filter_cons, ih]

/-- The device loop of doStopAll sends, for each open device in order, the
cancel-map synthesized messages of that device followed by the broadcast;
the per-device entries are those of the incoming cancel map because each
step only erases entries of its own device. -/
theorem doStopAllLoop_trace (retrig : Bool) (handles : List Bool) :
    ∀ (devs : List Nat) (cmap rmap : NoteMap), devs.Nodup →
      (doStopAllLoop retrig handles devs cmap rmap).1 =
        (devs.filter (fun i => handles.getD i false)).flatMap
          (fun i => ((cmap.entries.filter
              (fun e => e.1.devNum = (i : Int))).flatMap entryCancelMsgs ++
            stopBroadcast).map (fun m => (i, m))) := by
  intro devs
  induction devs with
  | nil =>
    intro cmap rmap _
    rfl
  | cons i rest ih =>
    intro cmap rmap hnodup
    obtain ⟨hni, hnd⟩ := List.nodup_cons.mp hnodup
    by_cases hop : handles.getD i false = true
    · have hcalls : (cmap.clearAndCall (i : Int) ALL_TRACKS).1 =
          cmap.entries.filter (fun e => e.1.devNum = (i : Int)) := by
        unfold NoteMap.clearAndCall
        refine List.filter_congr ?_
        intro e _
        simp [matchesClear]
      have hstep : (doStopAllLoop retrig handles (i :: rest) cmap rmap).1 =
          (((runCancelCalls retrig i (cmap.clearAndCall i ALL_TRACKS).1
              rmap).1 ++ stopBroadcast).map (fun msg => (i, msg))) ++
            (doStopAllLoop retrig handles rest
              (cmap.clearAndCall i ALL_TRACKS).2
              (runCancelCalls retrig i (cmap.clearAndCall i ALL_TRACKS).1
                rmap).2).1 := by
        conv_lhs => rw [doStopAllLoop]
        rw [if_pos hop]
      rw [hstep, runCancelCalls_fst]
      have hrec := ih (cmap.clearAndCall i ALL_TRACKS).2
        (runCancelCalls retrig i (cmap.clearAndCall i ALL_TRACKS).1 rmap).2
        hnd
      rw [hrec, hcalls]
      have hfix : ∀ j ∈ rest.filter (fun k => handles.getD k false),
          ((cmap.clearAndCall (i : Int) ALL_TRACKS).2.entries.filter
              (fun e => e.1.devNum = (j : Int))).flatMap entryCancelMsgs ++
              stopBroadcast =
            (cmap.entries.filter
              (fun e => e.1.devNum = (j : Int))).flatMap entryCancelMsgs ++
              stopBroadcast := by
        intro j hj
        have hjrest : j ∈ rest := List.mem_of_mem_filter hj
        have hji : j ≠ i := fun hh => hni (hh ▸ hjrest)
        have hdisj : ∀ e : NoteEntry,
            matchesClear (i : Int) ALL_TRACKS e = true →
              decide (e.1.devNum = (j : Int)) = false := by
          intro e hme
          have : e.1.devNum = (i : Int) := by
            simpa [matchesClear] using hme
          simp only [this, decide_eq_false_iff_not]
          intro hc
          exact hji (by exact_mod_cast hc.symm)
        rw [show (cmap.clearAndCall (i : Int) ALL_TRACKS).2.entries =
            eraseFirstRun (matchesClear i ALL_TRACKS) cmap.entries from rfl]
        rw [filter_eraseFirstRun_of_disjoint hdisj]
      have hcongr := flatMap_congr (f := fun (j : Nat) =>
          (((cmap.clearAndCall (i : Int) ALL_TRACKS).2.entries.filter
            (fun e => e.1.devNum = (j : Int))).flatMap entryCancelMsgs ++
            stopBroadcast).map (fun m => (j, m)))
        (g := fun (j : Nat) => ((cmap.entries.filter
            (fun e => e.1.devNum = (j : Int))).flatMap entryCancelMsgs ++
            stopBroadcast).map (fun m => (j, m)))
        (l := rest.filter (fun k => handles.getD k false))
        (fun j hj => congrArg (List.map (fun m => (j, m))) (hfix j hj))
      rw [hcongr, List.filter_cons_of_pos (by simpa using hop),
        List.flatMap_cons]
    · have hstep : (doStopAllLoop retrig handles (i :: rest) cmap rmap).1 =
          (doStopAllLoop retrig handles rest cmap rmap).1 := by
        conv_lhs => rw [doStopAllLoop]
        rw [if_neg hop]
      rw [hstep, ih cmap rmap hnd,
        List.filter_cons_of_neg (by simpa using hop)]

/-- C4: after stop_all both note maps and the event queue are empty, and
the send trace is, for every open device in order, the synthesized
cancellation of each of that device's cancel-map entries (one sustain-off
for note -1, count note-offs otherwise) followed by All-Notes-Off,
Sustain = 0 and All-Sound-Off on all 16 channels. -/
theorem doStopAll_spec (st : MidiOutState) :
    (doStopAll st).1 =
        expectedStopTrace st.midiOutHandles st.cancelNoteMap ∧
      (doStopAll st).2.moEventQueue = [] ∧
      (doStopAll st).2.retriggerNoteMap.entries = [] ∧
      (doStopAll st).2.cancelNoteMap.entries = [] := by
  refine ⟨?_, rfl, rfl, rfl⟩
  show (doStopAllLoop st.retriggerNotes st.midiOutHandles
      (List.range st.midiOutHandles.length) st.cancelNoteMap
      st.retriggerNoteMap).1 =
    expectedStopTrace st.midiOutHandles st.cancelNoteMap
  rw [doStopAllLoop_trace st.retriggerNotes st.midiOutHandles
    (List.range st.midiOutHandles.length) st.cancelNoteMap
    st.retriggerNoteMap (List.nodup_range _)]
  rfl

end Pytakt
